import Mathlib

/-!
# A shallow embedding of the NVIDIA rerank connector

This file embeds, in Lean 4, the data model and the operations of
`llama_index/postprocessor/nvidia_rerank/base.py` (class `NVIDIARerank`):

* construction (`__init__`, `_validate_url`, `_validate_model`,
  `__get_default_model`),
* model listing (`_get_models`),
* the batched scoring operation (`_postprocess_nodes` with its inner
  `batched` generator).

Conventions of the embedding:

* The remote scoring service is an oracle `service : Nat → List Ranking`
  giving the parsed `rankings` array of the response to the POST for the
  i-th batch.  The shape assertions of the Python code (`rankings` is a
  list of dicts with `index` and `logit` keys) hold by typing here; the
  *unchecked* part — the range of `index` — is kept explicit via Python
  list-indexing semantics (`pyGet`), including negative indices.
* Scores (`logit`, a Python float) are modelled as integers: the code never
  computes with scores, it only compares them when sorting.
* Network effects are visible as the list of issued POST payloads returned
  alongside the result; exceptions are an `Except` value.
* Nodes are opaque content carriers (`Node`), matching how the code only
  ever reads `n.get_content(...)` and passes `n.node` through.
-/

/-- A retrieval node: opaque back-reference (`id`) plus the text that
`get_content(metadata_mode=EMBED)` would return. -/
structure Node where
  id : Nat
  content : String
deriving DecidableEq, Repr

/-- `NodeWithScore`: a node together with a numeric score. -/
structure NodeWithScore where
  node : Node
  score : Int
deriving DecidableEq, Repr

/-- One entry of the `rankings` array of a scoring response:
`{"index": int, "logit": float}`. -/
structure Ranking where
  index : Int
  logit : Int
deriving DecidableEq, Repr

/-- The effective position of Python index `i` into a list: negative
indices count from the back. -/
def pyIndex (l : List α) (i : Int) : Int :=
  if i < 0 then (l.length : Int) + i else i

/-- Python list indexing `l[i]` for an `int` index: non-negative indices
address from the front, negative indices from the back, anything else is
an `IndexError` (`none`). -/
def pyGet (l : List α) (i : Int) : Option α :=
  if 0 ≤ pyIndex l i then l.get? (pyIndex l i).toNat else none

/-- The inner generator of `_postprocess_nodes`:
`for i in range(0, len(ls), size): yield ls[i : i + size]`.
The `size = 0` branch is unreachable in the program (`max_batch_size ≥ 1`
is enforced by the field validator `ge=1`); it is mapped to `[]` here so
that the function is total. -/
def batched : List α → Nat → List (List α)
  | [], _ => []
  | _ :: _, 0 => []
  | x :: xs, n + 1 => (x :: xs).take (n + 1) :: batched ((x :: xs).drop (n + 1)) (n + 1)
termination_by ls _ => ls.length
decreasing_by
  simp only [List.length_drop, List.length_cons]
  omega

/-- The resolved client configuration of an `NVIDIARerank` instance:
the pydantic fields `model`, `top_n`, `max_batch_size`, `truncate`,
`base_url` and the private attributes `_api_key`, `_is_hosted`.
`top_n ≥ 0` and `max_batch_size ≥ 1` hold by the `Nat` typing (the
pydantic validators `ge=0` / `ge=1`); `max_batch_size ≥ 1` is carried as
a hypothesis where needed. -/
structure ClientState where
  model : String
  top_n : Nat
  max_batch_size : Nat
  truncate : Option String
  api_key : String
  base_url : String
  is_hosted : Bool
deriving DecidableEq, Repr

/-- The JSON body of one scoring POST request, as built in
`_postprocess_nodes`: model, optional truncate, query text, and the
passage texts of one batch. -/
structure Payload where
  model : String
  truncate : Option String
  query : String
  passages : List String
deriving DecidableEq, Repr

/-- Exceptions the scoring operation can raise.  `missingQuery` is the
`ValueError` for a `None` query bundle; `indexError` is the untyped
`IndexError` from `batch[result["index"]]` on an out-of-range index. -/
inductive RerankError where
  | missingQuery
  | indexError
deriving DecidableEq, Repr

/-- Stable insertion into a list sorted by score descending: the new
element goes before the first element whose score is not greater, so
earlier elements keep their place among equals. -/
def insertDesc (a : NodeWithScore) : List NodeWithScore → List NodeWithScore
  | [] => [a]
  | b :: bs => if a.score < b.score then b :: insertDesc a bs else a :: b :: bs

/-- `results.sort(key=lambda x: x.score, reverse=True)`: Python's sort is
stable; this stable insertion sort produces the same list for the
descending-by-score comparison. -/
def pySortDesc : List NodeWithScore → List NodeWithScore
  | [] => []
  | x :: xs => insertDesc x (pySortDesc xs)

/-- The per-entry mapping of a batch's (already truncated) rankings list:
`NodeWithScore(node=batch[result["index"]].node, score=result["logit"])`
for each entry, failing with `IndexError` (`none`) exactly when the Python
indexing fails. -/
def mapRanked (batch : List NodeWithScore) : List Ranking → Option (List NodeWithScore)
  | [] => some []
  | r :: rs =>
    match pyGet batch r.index with
    | none => none
    | some n => (mapRanked batch rs).map (fun tail => ⟨n.node, r.logit⟩ :: tail)

/-- Processing of one batch's response in the loop of `_postprocess_nodes`:
`for result in response.json()["rankings"][: self.top_n]: results.append(...)`. -/
def processBatch (top_n : Nat) (batch : List NodeWithScore) (rankings : List Ranking) :
    Option (List NodeWithScore) :=
  mapRanked batch (rankings.take top_n)

/-- The batch loop of `_postprocess_nodes`, from batch number `i` on:
one POST payload is issued per batch, its response entries are appended to
the accumulator; an `IndexError` aborts the loop (payloads already issued
stay issued). -/
def runBatches (st : ClientState) (q : String) (service : Nat → List Ranking) :
    List (List NodeWithScore) → Nat → List Payload × Except RerankError (List NodeWithScore)
  | [], _ => ([], .ok [])
  | b :: rest, i =>
    let pay : Payload :=
      { model := st.model
        truncate := st.truncate
        query := q
        passages := b.map (fun n => n.node.content) }
    match processBatch st.top_n b (service i) with
    | none => ([pay], .error .indexError)
    | some scored =>
      let out := runBatches st q service rest (i + 1)
      (pay :: out.1,
        match out.2 with
        | .ok acc => .ok (scored ++ acc)
        | .error e => .error e)

/-- `_postprocess_nodes(self, nodes, query_bundle)`: the full scoring
operation.  Returns the POST payloads issued (in order) together with
either the returned node list or the raised exception.  Mirrors the
source: `None` query check, empty-input early return, batching by
`max_batch_size`, per-batch truncation to `top_n`, a re-sort by score
descending only when `len(nodes) > max_batch_size`, final truncation to
`top_n`. -/
def postprocess_nodes (st : ClientState) (query_bundle : Option String)
    (nodes : List NodeWithScore) (service : Nat → List Ranking) :
    List Payload × Except RerankError (List NodeWithScore) :=
  match query_bundle with
  | none => ([], .error .missingQuery)
  | some q =>
    if nodes.length = 0 then ([], .ok [])
    else
      let out := runBatches st q service (batched nodes st.max_batch_size) 0
      (out.1, out.2.map (fun results =>
        let results := if st.max_batch_size < nodes.length then pySortDesc results else results
        results.take st.top_n))

/-- The method-level view of `_postprocess_nodes`: the method body contains
no assignment to any `self` field, so the embedded method returns the
client state unchanged next to its value. -/
def postprocess_nodes_method (st : ClientState) (query_bundle : Option String)
    (nodes : List NodeWithScore) (service : Nat → List Ranking) :
    ClientState × List Payload × Except RerankError (List NodeWithScore) :=
  (st, postprocess_nodes st query_bundle nodes service)

/-- `str.rstrip("/")`: drop all trailing `/` characters. -/
def rstripSlash (s : String) : String :=
  String.mk ((s.data.reverse.dropWhile (fun c => c = '/')).reverse)

/-- A known or discovered reranking model (`utils.Model`): id, optional
base model, optional dedicated endpoint.  `utils.py` is not part of the
given sources; the record follows the spec's data model. -/
structure CatalogModel where
  id : String
  base_model : Option String
  endpoint : Option String
deriving DecidableEq, Repr

/-- `_get_models(self)`: before choosing the listing URL the method
reassigns `self.base_url = self.base_url.rstrip("/") + "/"`.  The GET
and its shape assertions are summarised by the oracle `listed` (the
models parsed from a well-formed response); hosted mode returns the
static table without using the response.  The state component records
the `base_url` mutation. -/
def get_models (st : ClientState) (table : List CatalogModel)
    (listed : List CatalogModel) : ClientState × List CatalogModel :=
  let st' := { st with base_url := rstripSlash st.base_url ++ "/" }
  (st', if st'.is_hosted then table else listed)

/-- Exceptions construction can raise (all `ValueError` in the source; the
spec groups them as ConfigurationError). -/
inductive InitError where
  | missingApiKey
  | invalidBaseUrl
  | noLocalModel
  | modelNotFound
deriving DecidableEq, Repr

/-- Python truthiness of an `Optional[str]`: `None` and `""` are falsy. -/
def optTruthy : Option String → Bool
  | none => false
  | some s => !s.isEmpty

/-- Python `a or b` on `Optional[str]` values. -/
def pyOr (a b : Option String) : Option String :=
  if optTruthy a then a else b

/-- The components of `urlparse` the code reads. -/
structure ParsedUrl where
  scheme : String
  netloc : String
  path : String
deriving DecidableEq, Repr

/-- Split a character list at the first occurrence of `"://"`. -/
def splitSchemeAux : List Char → List Char → Option (List Char × List Char)
  | [], _ => none
  | c :: rest, acc =>
    if c = ':' ∧ rest.take 2 = ['/', '/'] then some (acc.reverse, rest.drop 2)
    else splitSchemeAux rest (c :: acc)

/-- Modelled from the spec: `urllib.parse.urlparse` (standard library, not
part of the given sources), restricted to URLs without params, query or
fragment — what "must parse as an absolute URL with scheme and host"
relies on.  The text before the first `"://"` is the scheme, the
following run up to the first `/` is the netloc, the remainder is the
path; a string without `"://"` has empty scheme and netloc. -/
def urlparse (url : String) : ParsedUrl :=
  match splitSchemeAux url.data [] with
  | none => ⟨"", "", url⟩
  | some (sch, rest) =>
    ⟨String.mk sch, String.mk (rest.takeWhile (fun c => c ≠ '/')),
      String.mk (rest.dropWhile (fun c => c ≠ '/'))⟩

/-- Modelled from the spec: `urllib.parse.urlunparse` (standard library)
applied as in the source, `urlunparse((scheme, netloc, path, None, None,
None))` with nonempty scheme and netloc. -/
def urlunparse (scheme netloc path : String) : String :=
  scheme ++ "://" ++ netloc ++ path

/-- `path.endswith("/v1")`. -/
def endsWithSlashV1 (s : String) : Bool :=
  s.data.reverse.take 3 == ['1', 'v', '/']

/-- `s.startswith(p)` (char-list based so that it reduces definitionally). -/
def pyStartsWith (s p : String) : Bool :=
  s.data.take p.data.length == p.data

/-- `_validate_url(self, base_url)`: checks that scheme and netloc are
present, strips trailing `/` from the path, and if the path does not end
in `/v1`, emits a warning (the returned flag) and rebuilds the URL with
`/v1` appended.  Returns the (possibly rewritten) URL. -/
def validate_url : Option String → Except InitError (Option String × Bool)
  | none => .ok (none, false)
  | some url =>
    let parsed := urlparse url
    if parsed.scheme.isEmpty || parsed.netloc.isEmpty then .error .invalidBaseUrl
    else
      let normalized_path := rstripSlash parsed.path
      if endsWithSlashV1 normalized_path then .ok (some url, false)
      else .ok (some (urlunparse parsed.scheme parsed.netloc (normalized_path ++ "/v1")), true)

/-- Modelled from the spec: `get_from_param_or_env` lives in
`llama_index.core.base.llms.generic_utils`, not under the given sources.
Per the spec the key is "resolved from explicit value or an environment
variable": an explicitly passed value wins, else a non-empty environment
value, else the default. -/
def get_from_param_or_env (param env : Option String) (default : String) : String :=
  match param with
  | some p => p
  | none =>
    match env with
    | some e => if e.isEmpty then default else e
    | none => default

/-- Modelled from the spec: `determine_model` from `utils.py` (not under
the given sources) — the spec says a model name is validated "against the
known model table", so this is a lookup by id in that table. -/
def determine_model (table : List CatalogModel) (name : String) : Option CatalogModel :=
  table.find? (fun m => m.id == name)

/-- The observable outcome of a successful construction: the final field
values plus which warnings were emitted on the way. -/
structure InitResult where
  model : String
  base_url : Option String
  api_key : String
  is_hosted : Bool
  warned_v1 : Bool
  warned_default_model : Bool
  warned_unknown_model : Bool
deriving DecidableEq, Repr

/-- `NVIDIARerank.__init__`, following the source line by line.
`base_url` is the effective argument (after Python's default
`os.getenv("NVIDIA_BASE_URL", BASE_URL)`); `env_api_key` is the value of
the `NVIDIA_API_KEY` environment variable; `known_urls` is `KNOWN_URLS`,
`default_model` is `DEFAULT_MODEL` and `table` is `RANKING_MODEL_TABLE`
(all from `utils.py`, which is not under the given sources); `listed` is
the oracle for the models a self-hosted `_get_models` call would parse
from the listing response.

Note the last line of the source `__init__` (`self.base_url = base_url`)
reassigns the *original* argument, discarding both the URL returned by
`_validate_url` and any endpoint override from `_validate_model`; the
binding `_validated_base_url` below is therefore dead, exactly as in the
source. -/
def init (model0 nvidia_api_key api_key0 base_url env_api_key : Option String)
    (known_urls : List String) (default_model : String)
    (table listed : List CatalogModel) : Except InitError InitResult :=
  let in_known : Bool :=
    match base_url with
    | some u => known_urls.contains u
    | none => false
  let model1 : Option String :=
    if !optTruthy base_url || (in_known && !optTruthy model0) then
      pyOr model0 (some default_model)
    else model0
  let is_hosted := in_known
  let api_key := get_from_param_or_env (pyOr nvidia_api_key api_key0) env_api_key
    "NO_API_KEY_PROVIDED"
  let urlStep : Except InitError (Option String × Bool) :=
    if is_hosted then
      if api_key.isEmpty || api_key == "NO_API_KEY_PROVIDED" then .error .missingApiKey
      else .ok (base_url, false)
    else validate_url base_url
  match urlStep with
  | .error e => .error e
  | .ok (_validated_base_url, warned_v1) =>
    let modelStep : Except InitError (String × Bool) :=
      if optTruthy model1 then .ok (model1.getD "", false)
      else if is_hosted then .ok (default_model, false)
      else
        let valid := listed.filter
          (fun m => !optTruthy m.base_model || m.base_model == some m.id)
        match valid with
        | [] => .error .noLocalModel
        | v :: _ => .ok (v.id, true)
    match modelStep with
    | .error e => .error e
    | .ok (modelF, warned_default) =>
      let modelCheck : Except InitError Bool :=
        if pyStartsWith modelF "nvdev/" then .ok false
        else
          match determine_model table modelF with
          | none =>
            if is_hosted then .ok true
            else if (listed.map (fun m => m.id)).contains modelF then .ok false
            else .error .modelNotFound
          | some _ => .ok false
      match modelCheck with
      | .error e => .error e
      | .ok warned_unknown =>
        .ok { model := modelF
              base_url := base_url
              api_key := api_key
              is_hosted := is_hosted
              warned_v1 := warned_v1
              warned_default_model := warned_default
              warned_unknown_model := warned_unknown }

/-- The POST payload built for one batch. -/
def mkPayload (st : ClientState) (q : String) (b : List NodeWithScore) : Payload :=
  { model := st.model
    truncate := st.truncate
    query := q
    passages := b.map (fun n => n.node.content) }

theorem batched_cons_of_ne (ls : List α) (size : Nat) (h : ls ≠ []) (hs : size ≠ 0) :
    batched ls size = ls.take size :: batched (ls.drop size) size := by
  match ls, size with
  | [], _ => exact absurd rfl h
  | _ :: _, 0 => exact absurd rfl hs
  | x :: xs, n + 1 => rw [batched]

/-- Concatenating the batches, in order, gives back the original list. -/
theorem batched_flatten (ls : List α) (size : Nat) (hs : 1 ≤ size) :
    (batched ls size).flatten = ls := by
  induction ls, size using batched.induct with
  | case1 => simp [batched]
  | case2 => omega
  | case3 x xs n ih =>
    simp only [batched, List.flatten_cons]
    rw [ih (by omega)]
    exact List.take_append_drop _ _

/-- Every batch has at most `size` elements. -/
theorem batched_mem_length_le (ls : List α) (size : Nat) :
    ∀ b ∈ batched ls size, b.length ≤ size := by
  induction ls, size using batched.induct with
  | case1 => intro b hb; simp [batched] at hb
  | case2 => intro b hb; simp [batched] at hb
  | case3 x xs n ih =>
    intro b hb
    rw [batched, List.mem_cons] at hb
    rcases hb with hb | hb
    · subst hb; exact List.length_take_le (n + 1) (x :: xs)
    · exact ih b hb

/-- The number of batches is `⌈|ls| / size⌉ = (|ls| + size - 1) / size`. -/
theorem batched_length (ls : List α) (size : Nat) (hs : 1 ≤ size) :
    (batched ls size).length = (ls.length + size - 1) / size := by
  induction ls, size using batched.induct with
  | case1 size =>
    simp only [batched, List.length_nil]
    rw [Nat.div_eq_of_lt (by omega)]
  | case2 => omega
  | case3 x xs n ih =>
    rw [batched]
    simp only [List.length_cons]
    rw [ih (by omega)]
    simp only [List.length_drop, List.length_cons]
    rcases Nat.lt_or_ge xs.length (n + 1) with hle | hge
    · have h1 : xs.length + 1 - (n + 1) = 0 := by omega
      have h2 : (0 + (n + 1) - 1) / (n + 1) = 0 := Nat.div_eq_of_lt (by omega)
      have h3 : (xs.length + 1 + (n + 1) - 1) / (n + 1) = 1 :=
        Nat.div_eq_of_lt_le (by omega) (by omega)
      rw [h1, h2, h3]
    · have h1 : xs.length + 1 - (n + 1) + (n + 1) - 1 = xs.length - (n + 1) + (n + 1) := by
        omega
      have h2 : xs.length + 1 + (n + 1) - 1 = xs.length + (n + 1) := by omega
      rw [h1, h2, Nat.add_div_right _ (by omega), Nat.add_div_right _ (by omega)]
      have h3 : xs.length = xs.length - (n + 1) + (n + 1) := by omega
      conv_rhs => rw [h3, Nat.add_div_right _ (by omega)]

/-- A list no longer than `size` (and nonempty) forms a single batch. -/
theorem batched_single (ls : List α) (size : Nat) (h0 : ls ≠ [])
    (hle : ls.length ≤ size) : batched ls size = [ls] := by
  have hs : size ≠ 0 := by
    intro h; subst h
    exact h0 (List.eq_nil_of_length_eq_zero (Nat.le_zero.mp hle))
  rw [batched_cons_of_ne ls size h0 hs, List.take_of_length_le hle,
    List.drop_eq_nil_of_le hle]
  match size, hs with
  | n + 1, _ => rw [batched]

theorem insertDesc_length (a : NodeWithScore) (l : List NodeWithScore) :
    (insertDesc a l).length = l.length + 1 := by
  induction l with
  | nil => rfl
  | cons b bs ih =>
    simp only [insertDesc]
    split
    · simp [ih]
    · simp

theorem pySortDesc_length (l : List NodeWithScore) :
    (pySortDesc l).length = l.length := by
  induction l with
  | nil => rfl
  | cons x xs ih => simp [pySortDesc, insertDesc_length, ih]

/-- Membership in `insertDesc`. -/
theorem insertDesc_mem_iff (a : NodeWithScore) (l : List NodeWithScore)
    (c : NodeWithScore) : c ∈ insertDesc a l ↔ c = a ∨ c ∈ l := by
  induction l with
  | nil => simp [insertDesc]
  | cons b bs ih =>
    simp only [insertDesc]
    split
    · simp only [List.mem_cons, ih]
      tauto
    · simp only [List.mem_cons]

theorem insertDesc_sorted (a : NodeWithScore) (l : List NodeWithScore)
    (hl : l.Sorted (fun u v => v.score ≤ u.score)) :
    (insertDesc a l).Sorted (fun u v => v.score ≤ u.score) := by
  induction l with
  | nil => simp [insertDesc]
  | cons b bs ih =>
    rw [List.sorted_cons] at hl
    simp only [insertDesc]
    split
    · rename_i hab
      rw [List.sorted_cons]
      refine ⟨fun c hc => ?_, ih hl.2⟩
      rcases (insertDesc_mem_iff a bs c).mp hc with rfl | hcb
      · omega
      · exact hl.1 c hcb
    · rename_i hab
      rw [List.sorted_cons]
      refine ⟨fun c hc => ?_, List.sorted_cons.mpr hl⟩
      rcases List.mem_cons.mp hc with rfl | hc
      · omega
      · exact le_trans (hl.1 c hc) (by omega)

theorem pySortDesc_sorted (l : List NodeWithScore) :
    (pySortDesc l).Sorted (fun u v => v.score ≤ u.score) := by
  induction l with
  | nil => simp [pySortDesc]
  | cons x xs ih => exact insertDesc_sorted x (pySortDesc xs) ih

theorem get?_isSome_iff (l : List α) (k : Nat) : (l.get? k).isSome ↔ k < l.length := by
  rw [List.get?_eq_getElem?, Option.isSome_iff_exists]
  constructor
  · rintro ⟨a, ha⟩
    exact (List.getElem?_eq_some_iff.mp ha).1
  · intro hk
    exact ⟨l[k], List.getElem?_eq_some_iff.mpr ⟨hk, rfl⟩⟩

/-- `pyGet` succeeds exactly on indices in `[-len, len)` — Python's valid
index range, including negative indexing from the back. -/
theorem pyGet_isSome_iff (l : List α) (i : Int) :
    (pyGet l i).isSome ↔ (-(l.length : Int) ≤ i ∧ i < l.length) := by
  unfold pyGet pyIndex
  split_ifs with h1 h2 h2
  · rw [get?_isSome_iff]
    omega
  · simp only [Option.isSome_none, Bool.false_eq_true, false_iff]
    omega
  · rw [get?_isSome_iff]
    omega
  · exact absurd (by omega : (0 : Int) ≤ i) h2

theorem pyGet_mem (l : List α) (i : Int) (a : α) (h : pyGet l i = some a) : a ∈ l := by
  unfold pyGet at h
  split at h
  · rw [List.get?_eq_getElem?] at h
    obtain ⟨hk, he⟩ := List.getElem?_eq_some_iff.mp h
    exact he ▸ List.getElem_mem hk
  · cases h

theorem mapRanked_length (batch : List NodeWithScore) (rs : List Ranking)
    (out : List NodeWithScore) (h : mapRanked batch rs = some out) :
    out.length = rs.length := by
  induction rs generalizing out with
  | nil =>
    simp only [mapRanked, Option.some.injEq] at h
    simp [← h]
  | cons r rs ih =>
    simp only [mapRanked] at h
    cases hg : pyGet batch r.index with
    | none => rw [hg] at h; cases h
    | some n =>
      rw [hg] at h
      dsimp only at h
      cases hm : mapRanked batch rs with
      | none => rw [hm] at h; cases h
      | some tail =>
        rw [hm, Option.map_some'] at h
        injection h with h
        rw [← h]
        simp [ih tail hm]

theorem mapRanked_entry (batch : List NodeWithScore) (rs : List Ranking)
    (out : List NodeWithScore) (h : mapRanked batch rs = some out) :
    ∀ k < rs.length, ∃ n, pyGet batch (rs.getD k ⟨0, 0⟩).index = some n ∧
      out.getD k ⟨⟨0, ""⟩, 0⟩ = ⟨n.node, (rs.getD k ⟨0, 0⟩).logit⟩ := by
  induction rs generalizing out with
  | nil => intro k hk; simp at hk
  | cons r rs ih =>
    intro k hk
    simp only [mapRanked] at h
    cases hg : pyGet batch r.index with
    | none => rw [hg] at h; cases h
    | some n =>
      rw [hg] at h
      dsimp only at h
      cases hm : mapRanked batch rs with
      | none => rw [hm] at h; cases h
      | some tail =>
        rw [hm, Option.map_some'] at h
        injection h with h
        cases k with
        | zero =>
          refine ⟨n, ?_, ?_⟩
          · rw [List.getD_cons_zero]; exact hg
          · rw [← h, List.getD_cons_zero, List.getD_cons_zero]
        | succ k =>
          have hk' : k < rs.length := by simpa using hk
          obtain ⟨n', hg', he'⟩ := ih tail hm k hk'
          refine ⟨n', ?_, ?_⟩
          · rw [List.getD_cons_succ]; exact hg'
          · rw [← h, List.getD_cons_succ, List.getD_cons_succ]; exact he'

theorem mapRanked_mem (batch : List NodeWithScore) (rs : List Ranking)
    (out : List NodeWithScore) (h : mapRanked batch rs = some out) :
    ∀ x ∈ out, ∃ m ∈ batch, x.node = m.node := by
  induction rs generalizing out with
  | nil =>
    simp only [mapRanked, Option.some.injEq] at h
    simp [← h]
  | cons r rs ih =>
    simp only [mapRanked] at h
    cases hg : pyGet batch r.index with
    | none => rw [hg] at h; cases h
    | some n =>
      rw [hg] at h
      dsimp only at h
      cases hm : mapRanked batch rs with
      | none => rw [hm] at h; cases h
      | some tail =>
        rw [hm, Option.map_some'] at h
        injection h with h
        intro x hx
        rw [← h] at hx
        rcases List.mem_cons.mp hx with rfl | hx
        · exact ⟨n, pyGet_mem batch r.index n hg, rfl⟩
        · exact ih tail hm x hx

theorem mapRanked_total (batch : List NodeWithScore) (rs : List Ranking)
    (h : ∀ r ∈ rs, (pyGet batch r.index).isSome) :
    ∃ out, mapRanked batch rs = some out := by
  induction rs with
  | nil => exact ⟨[], rfl⟩
  | cons r rs ih =>
    obtain ⟨n, hn⟩ := Option.isSome_iff_exists.mp (h r (List.mem_cons_self r rs))
    obtain ⟨tail, htail⟩ := ih (fun r' hr' => h r' (List.mem_cons_of_mem r hr'))
    exact ⟨⟨n.node, r.logit⟩ :: tail, by simp [mapRanked, hn, htail]⟩

/-- Decomposition of a successful batch loop: one payload per batch, and
the accumulator is the concatenation of the per-batch contributions, each
of which is exactly the processed (truncated) response of its batch. -/
theorem runBatches_ok_decomp (st : ClientState) (q : String)
    (service : Nat → List Ranking) (batches : List (List NodeWithScore))
    (i : Nat) (ps : List Payload) (acc : List NodeWithScore)
    (h : runBatches st q service batches i = (ps, .ok acc)) :
    ps = batches.map (mkPayload st q) ∧
    ∃ contribs : List (List NodeWithScore),
      contribs.length = batches.length ∧
      acc = contribs.flatten ∧
      ∀ j < batches.length,
        processBatch st.top_n (batches.getD j []) (service (i + j)) =
          some (contribs.getD j []) := by
  induction batches generalizing i ps acc with
  | nil =>
    simp only [runBatches, Prod.mk.injEq] at h
    obtain ⟨h1, h2⟩ := h
    injection h2 with h2
    refine ⟨by simp [← h1], [], by simp, by simp [← h2], ?_⟩
    intro j hj
    simp at hj
  | cons b rest ih =>
    simp only [runBatches] at h
    cases hp : processBatch st.top_n b (service i) with
    | none =>
      rw [hp] at h
      simp only [Prod.mk.injEq] at h
      cases h.2
    | some scored =>
      rw [hp] at h
      dsimp only at h
      cases hrest : runBatches st q service rest (i + 1) with
      | mk ps' res' =>
        rw [hrest] at h
        dsimp only at h
        cases res' with
        | error e => simp only [Prod.mk.injEq] at h; cases h.2
        | ok acc' =>
          simp only [Prod.mk.injEq] at h
          obtain ⟨h1, h2⟩ := h
          injection h2 with h2
          obtain ⟨hps', contribs', hlen', hacc', hper'⟩ := ih (i + 1) ps' acc' hrest
          refine ⟨by simp [← h1, hps', mkPayload], scored :: contribs', by simp [hlen'], ?_, ?_⟩
          · rw [← h2, hacc']
            simp
          · intro j hj
            cases j with
            | zero =>
              simpa using hp
            | succ j =>
              have hj' : j < rest.length := by simpa using hj
              have := hper' j hj'
              simpa [Nat.add_assoc, Nat.add_comm 1 j, Nat.add_left_comm] using this

/-- If every batch processes successfully, the loop succeeds. -/
theorem runBatches_total (st : ClientState) (q : String)
    (service : Nat → List Ranking) (batches : List (List NodeWithScore)) (i : Nat)
    (h : ∀ j < batches.length,
      ∃ c, processBatch st.top_n (batches.getD j []) (service (i + j)) = some c) :
    ∃ ps acc, runBatches st q service batches i = (ps, .ok acc) := by
  induction batches generalizing i with
  | nil => exact ⟨[], [], rfl⟩
  | cons b rest ih =>
    obtain ⟨c0, hc0⟩ := h 0 (by simp)
    have hc0' : processBatch st.top_n b (service i) = some c0 := by simpa using hc0
    obtain ⟨ps', acc', hrest⟩ := ih (i + 1) (fun j hj => by
      obtain ⟨c, hc⟩ := h (j + 1) (by simpa using Nat.succ_lt_succ hj)
      exact ⟨c, by simpa [Nat.add_assoc, Nat.add_comm 1 j, Nat.add_left_comm] using hc⟩)
    refine ⟨mkPayload st q b :: ps', c0 ++ acc', ?_⟩
    simp only [runBatches, hc0', hrest, mkPayload]

theorem postprocess_ok_elim (st : ClientState) (q : String) (nodes : List NodeWithScore)
    (service : Nat → List Ranking) (ps : List Payload) (res : List NodeWithScore)
    (h0 : nodes ≠ [])
    (hrun : postprocess_nodes st (some q) nodes service = (ps, .ok res)) :
    ∃ acc, runBatches st q service (batched nodes st.max_batch_size) 0 = (ps, .ok acc) ∧
      res = (if st.max_batch_size < nodes.length then pySortDesc acc else acc).take st.top_n := by
  have hlen : ¬(nodes.length = 0) := by
    intro h
    exact h0 (List.eq_nil_of_length_eq_zero h)
  simp only [postprocess_nodes, if_neg hlen] at hrun
  cases hout : runBatches st q service (batched nodes st.max_batch_size) 0 with
  | mk ps0 r0 =>
    rw [hout] at hrun
    dsimp only at hrun
    cases r0 with
    | error e => simp [Except.map] at hrun
    | ok acc =>
      simp only [Except.map, Prod.mk.injEq] at hrun
      obtain ⟨h1, h2⟩ := hrun
      injection h2 with h2
      exact ⟨acc, by rw [h1], h2.symm⟩

theorem flatten_length_le_flatten {α β : Type} (xs : List (List α)) (ys : List (List β))
    (hlen : xs.length = ys.length)
    (h : ∀ j < xs.length, (xs.getD j []).length ≤ (ys.getD j []).length) :
    xs.flatten.length ≤ ys.flatten.length := by
  induction xs generalizing ys with
  | nil => simp
  | cons x xs ih =>
    cases ys with
    | nil => simp at hlen
    | cons y ys =>
      simp only [List.flatten_cons, List.length_append]
      have h0 := h 0 (by simp)
      simp only [List.getD_cons_zero] at h0
      have hrest := ih ys (by simpa using hlen) (fun j hj => by
        have := h (j + 1) (by simpa using Nat.succ_lt_succ hj)
        simpa [List.getD_cons_succ] using this)
      omega

theorem pySortDesc_mem_iff (l : List NodeWithScore) (x : NodeWithScore) :
    x ∈ pySortDesc l ↔ x ∈ l := by
  induction l with
  | nil => simp [pySortDesc]
  | cons a as ih =>
    simp only [pySortDesc, insertDesc_mem_iff, List.mem_cons, ih]

theorem getD_mem_of_lt {l : List α} {j : Nat} (d : α) (hj : j < l.length) :
    l.getD j d ∈ l := by
  rw [List.getD_eq_getElem?_getD, List.getElem?_eq_getElem hj]
  exact List.getElem_mem hj

theorem runBatches_error_eq (st : ClientState) (q : String)
    (service : Nat → List Ranking) (batches : List (List NodeWithScore)) (i : Nat)
    (ps : List Payload) (e : RerankError)
    (h : runBatches st q service batches i = (ps, .error e)) : e = .indexError := by
  induction batches generalizing i ps e with
  | nil =>
    simp only [runBatches, Prod.mk.injEq] at h
    cases h.2
  | cons b rest ih =>
    simp only [runBatches] at h
    cases hp : processBatch st.top_n b (service i) with
    | none =>
      rw [hp] at h
      simp only [Prod.mk.injEq] at h
      injection h.2 with h2
      exact h2.symm
    | some scored =>
      rw [hp] at h
      dsimp only at h
      cases hrest : runBatches st q service rest (i + 1) with
      | mk ps' res' =>
        rw [hrest] at h
        dsimp only at h
        cases res' with
        | ok acc' => simp only [Prod.mk.injEq] at h; cases h.2
        | error e' =>
          simp only [Prod.mk.injEq] at h
          injection h.2 with h2
          rw [← h2]
          exact ih (i + 1) ps' e' hrest

theorem mapRanked_isSome_of_some (batch : List NodeWithScore) (rs : List Ranking)
    (out : List NodeWithScore) (h : mapRanked batch rs = some out) :
    ∀ r ∈ rs, (pyGet batch r.index).isSome := by
  induction rs generalizing out with
  | nil => intro r hr; simp at hr
  | cons r rs ih =>
    intro r' hr'
    simp only [mapRanked] at h
    cases hg : pyGet batch r.index with
    | none => rw [hg] at h; cases h
    | some n =>
      rw [hg] at h
      dsimp only at h
      cases hm : mapRanked batch rs with
      | none => rw [hm] at h; cases h
      | some tail =>
        rcases List.mem_cons.mp hr' with rfl | hr'
        · simp [hg]
        · exact ih tail hm r' hr'

/-- C1: for every rerank invocation with a non-None query and any list of
passages, assuming each batch response's rankings list has at most as many
entries as the batch has passages, the returned list has length at most
`min top_n (number of input passages)`. -/
theorem claim_C1 (st : ClientState) (q : String) (nodes : List NodeWithScore)
    (service : Nat → List Ranking) (ps : List Payload) (res : List NodeWithScore)
    (hs : 1 ≤ st.max_batch_size)
    (hresp : ∀ j < (batched nodes st.max_batch_size).length,
      (service j).length ≤ ((batched nodes st.max_batch_size).getD j []).length)
    (hrun : postprocess_nodes st (some q) nodes service = (ps, .ok res)) :
    res.length ≤ min st.top_n nodes.length := by
  rcases eq_or_ne nodes [] with rfl | h0
  · have hrun' : (([] : List Payload), Except.ok ([] : List NodeWithScore)) = (ps, .ok res) :=
      hrun
    simp only [Prod.mk.injEq] at hrun'
    injection hrun'.2 with h2
    simp [← h2]
  · obtain ⟨acc, hout, hres⟩ := postprocess_ok_elim st q nodes service ps res h0 hrun
    obtain ⟨-, contribs, hclen, hacc, hper⟩ :=
      runBatches_ok_decomp st q service (batched nodes st.max_batch_size) 0 ps acc hout
    have hacclen : acc.length ≤ nodes.length := by
      rw [hacc]
      calc contribs.flatten.length
          ≤ (batched nodes st.max_batch_size).flatten.length := by
            apply flatten_length_le_flatten _ _ hclen
            intro j hj
            have hj' : j < (batched nodes st.max_batch_size).length := hclen ▸ hj
            have hp := hper j hj'
            have := mapRanked_length _ _ _ hp
            calc (contribs.getD j []).length
                = ((service (0 + j)).take st.top_n).length := this
              _ ≤ (service (0 + j)).length := by
                    rw [List.length_take]; exact min_le_right _ _
              _ = (service j).length := by rw [Nat.zero_add]
              _ ≤ ((batched nodes st.max_batch_size).getD j []).length := hresp j hj'
        _ = nodes.length := by rw [batched_flatten nodes st.max_batch_size hs]
    rw [hres]
    rw [Nat.le_min]
    constructor
    · exact List.length_take_le ..
    · split
      · calc (List.take st.top_n (pySortDesc acc)).length
            ≤ (pySortDesc acc).length := by
              rw [List.length_take]; exact min_le_right _ _
          _ = acc.length := pySortDesc_length acc
          _ ≤ nodes.length := hacclen
      · calc (List.take st.top_n acc).length
            ≤ acc.length := by
              rw [List.length_take]; exact min_le_right _ _
          _ ≤ nodes.length := hacclen

/-- Witness for C1 at a concrete input: `top_n = 2`, `max_batch_size = 2`,
three passages in two batches. -/
theorem claim_C1_witness :
    ([⟨⟨1, "a"⟩, 5⟩, ⟨⟨3, "c"⟩, 4⟩] : List NodeWithScore).length ≤ min 2 3 := by
  have hb : batched ([⟨⟨1, "a"⟩, 0⟩, ⟨⟨2, "b"⟩, 0⟩, ⟨⟨3, "c"⟩, 0⟩] : List NodeWithScore) 2 =
      [[⟨⟨1, "a"⟩, 0⟩, ⟨⟨2, "b"⟩, 0⟩], [⟨⟨3, "c"⟩, 0⟩]] := by
    simp [batched]
  have h3 : (3 : Nat) = ([⟨⟨1, "a"⟩, 0⟩, ⟨⟨2, "b"⟩, 0⟩, ⟨⟨3, "c"⟩, 0⟩] : List NodeWithScore).length := rfl
  rw [h3]
  exact claim_C1 ⟨"m", 2, 2, none, "k", "http://h/v1", false⟩ "q"
    [⟨⟨1, "a"⟩, 0⟩, ⟨⟨2, "b"⟩, 0⟩, ⟨⟨3, "c"⟩, 0⟩]
    (fun i => if i = 0 then [⟨0, 5⟩, ⟨1, 3⟩] else [⟨0, 4⟩])
    [⟨"m", none, "q", ["a", "b"]⟩, ⟨"m", none, "q", ["c"]⟩]
    [⟨⟨1, "a"⟩, 5⟩, ⟨⟨3, "c"⟩, 4⟩]
    (by decide)
    (by rw [hb]; decide)
    (by simp [postprocess_nodes, Except.map, runBatches, processBatch, mapRanked,
      pyGet, pyIndex, batched, pySortDesc, insertDesc])

/-- C2: a successful invocation on a non-empty passage list partitions the
passages into contiguous batches of at most `max_batch_size`, preserving
input order (the issued payloads' passages concatenate back to the input
contents), issues exactly one POST per batch, and issues
`⌈N / max_batch_size⌉` POSTs; in particular a single POST when
`N < max_batch_size`. -/
theorem claim_C2 (st : ClientState) (q : String) (nodes : List NodeWithScore)
    (service : Nat → List Ranking) (ps : List Payload) (res : List NodeWithScore)
    (hs : 1 ≤ st.max_batch_size) (h0 : nodes ≠ [])
    (hrun : postprocess_nodes st (some q) nodes service = (ps, .ok res)) :
    ps = (batched nodes st.max_batch_size).map (mkPayload st q) ∧
    (ps.map Payload.passages).flatten = nodes.map (fun n => n.node.content) ∧
    (∀ p ∈ ps, p.passages.length ≤ st.max_batch_size) ∧
    ps.length = (nodes.length + st.max_batch_size - 1) / st.max_batch_size ∧
    (nodes.length < st.max_batch_size → ps.length = 1) := by
  obtain ⟨acc, hout, -⟩ := postprocess_ok_elim st q nodes service ps res h0 hrun
  obtain ⟨hps, -⟩ :=
    runBatches_ok_decomp st q service (batched nodes st.max_batch_size) 0 ps acc hout
  refine ⟨hps, ?_, ?_, ?_, ?_⟩
  · rw [hps, List.map_map]
    have hmap : (Payload.passages ∘ mkPayload st q) =
        fun b => b.map (fun n => n.node.content) := by
      funext b
      rfl
    rw [hmap, ← List.map_flatten, batched_flatten nodes st.max_batch_size hs]
  · intro p hp
    rw [hps] at hp
    obtain ⟨b, hb, hpb⟩ := List.mem_map.mp hp
    rw [← hpb]
    have : (mkPayload st q b).passages.length = b.length := by
      simp [mkPayload]
    rw [this]
    exact batched_mem_length_le nodes st.max_batch_size b hb
  · rw [hps, List.length_map]
    exact batched_length nodes st.max_batch_size hs
  · intro hlt
    rw [hps, List.length_map,
      batched_single nodes st.max_batch_size h0 (Nat.le_of_lt hlt)]
    rfl

/-- Witness for C2 at a concrete input: five passages, batch size two,
three POSTs of sizes 2, 2, 1. -/
theorem claim_C2_witness :
    ([⟨"m", none, "q", ["a", "b"]⟩, ⟨"m", none, "q", ["c", "d"]⟩,
        ⟨"m", none, "q", ["e"]⟩] : List Payload) =
      (batched ([⟨⟨1, "a"⟩, 0⟩, ⟨⟨2, "b"⟩, 0⟩, ⟨⟨3, "c"⟩, 0⟩, ⟨⟨4, "d"⟩, 0⟩,
          ⟨⟨5, "e"⟩, 0⟩] : List NodeWithScore) 2).map
        (mkPayload ⟨"m", 3, 2, none, "k", "http://h/v1", false⟩ "q") ∧
    (([⟨"m", none, "q", ["a", "b"]⟩, ⟨"m", none, "q", ["c", "d"]⟩,
        ⟨"m", none, "q", ["e"]⟩] : List Payload).map Payload.passages).flatten =
      ([⟨⟨1, "a"⟩, 0⟩, ⟨⟨2, "b"⟩, 0⟩, ⟨⟨3, "c"⟩, 0⟩, ⟨⟨4, "d"⟩, 0⟩,
          ⟨⟨5, "e"⟩, 0⟩] : List NodeWithScore).map (fun n => n.node.content) ∧
    (∀ p ∈ ([⟨"m", none, "q", ["a", "b"]⟩, ⟨"m", none, "q", ["c", "d"]⟩,
        ⟨"m", none, "q", ["e"]⟩] : List Payload), p.passages.length ≤ 2) ∧
    ([⟨"m", none, "q", ["a", "b"]⟩, ⟨"m", none, "q", ["c", "d"]⟩,
        ⟨"m", none, "q", ["e"]⟩] : List Payload).length = (5 + 2 - 1) / 2 ∧
    (5 < 2 → ([⟨"m", none, "q", ["a", "b"]⟩, ⟨"m", none, "q", ["c", "d"]⟩,
        ⟨"m", none, "q", ["e"]⟩] : List Payload).length = 1) :=
  claim_C2 ⟨"m", 3, 2, none, "k", "http://h/v1", false⟩ "q"
    [⟨⟨1, "a"⟩, 0⟩, ⟨⟨2, "b"⟩, 0⟩, ⟨⟨3, "c"⟩, 0⟩, ⟨⟨4, "d"⟩, 0⟩, ⟨⟨5, "e"⟩, 0⟩]
    (fun _ => [⟨0, 1⟩])
    [⟨"m", none, "q", ["a", "b"]⟩, ⟨"m", none, "q", ["c", "d"]⟩, ⟨"m", none, "q", ["e"]⟩]
    [⟨⟨1, "a"⟩, 1⟩, ⟨⟨3, "c"⟩, 1⟩, ⟨⟨5, "e"⟩, 1⟩]
    (by decide) (by decide)
    (by simp [postprocess_nodes, Except.map, runBatches, processBatch, mapRanked,
      pyGet, pyIndex, batched, pySortDesc, insertDesc, mkPayload])

/-- C3: on a successful invocation, if more than one batch was needed
(`N > max_batch_size`) the returned list is the accumulated results
re-sorted by score descending and then truncated; if exactly one batch was
used (`N ≤ max_batch_size`) the returned list is exactly the processed
response of that single batch, in the service's order (no re-sort). -/
theorem claim_C3 (st : ClientState) (q : String) (nodes : List NodeWithScore)
    (service : Nat → List Ranking) (ps : List Payload) (res : List NodeWithScore)
    (h0 : nodes ≠ [])
    (hrun : postprocess_nodes st (some q) nodes service = (ps, .ok res)) :
    (nodes.length ≤ st.max_batch_size →
      processBatch st.top_n nodes (service 0) = some res) ∧
    (st.max_batch_size < nodes.length →
      res.Sorted (fun u v => v.score ≤ u.score) ∧
      ∃ acc, runBatches st q service (batched nodes st.max_batch_size) 0 = (ps, .ok acc) ∧
        res = (pySortDesc acc).take st.top_n) := by
  obtain ⟨acc, hout, hres⟩ := postprocess_ok_elim st q nodes service ps res h0 hrun
  constructor
  · intro hle
    have hnot : ¬(st.max_batch_size < nodes.length) := by omega
    rw [if_neg hnot] at hres
    have hone : batched nodes st.max_batch_size = [nodes] :=
      batched_single nodes st.max_batch_size h0 hle
    rw [hone] at hout
    obtain ⟨-, contribs, hclen, hacc, hper⟩ :=
      runBatches_ok_decomp st q service [nodes] 0 ps acc hout
    have hp0 := hper 0 (by simp)
    simp only [List.getD_cons_zero] at hp0
    have hacc0 : acc = contribs.getD 0 [] := by
      match contribs, hclen with
      | [c], _ =>
        rw [hacc]
        simp
    rw [hacc0] at hres
    have hlen0 : (contribs.getD 0 []).length ≤ st.top_n := by
      have := mapRanked_length _ _ _ hp0
      calc (contribs.getD 0 []).length
          = ((service 0).take st.top_n).length := this
        _ ≤ st.top_n := List.length_take_le ..
    rw [List.take_of_length_le hlen0] at hres
    rw [← hres] at hp0
    exact hp0
  · intro hlt
    rw [if_pos hlt] at hres
    refine ⟨?_, acc, hout, hres⟩
    rw [hres]
    exact List.Pairwise.sublist (List.take_sublist _ _) (pySortDesc_sorted acc)

/-- Witness for C3 at a concrete multi-batch input (three passages, batch
size two): the result is sorted descending and equals the sorted, truncated
accumulation. -/
theorem claim_C3_witness :
    (([⟨⟨1, "a"⟩, 0⟩, ⟨⟨2, "b"⟩, 0⟩, ⟨⟨3, "c"⟩, 0⟩] : List NodeWithScore).length ≤ 2 →
      processBatch 2 [⟨⟨1, "a"⟩, 0⟩, ⟨⟨2, "b"⟩, 0⟩, ⟨⟨3, "c"⟩, 0⟩]
        ((fun i => if i = 0 then [(⟨0, 5⟩ : Ranking), ⟨1, 3⟩] else [⟨0, 4⟩]) 0) =
        some [⟨⟨1, "a"⟩, 5⟩, ⟨⟨3, "c"⟩, 4⟩]) ∧
    (2 < ([⟨⟨1, "a"⟩, 0⟩, ⟨⟨2, "b"⟩, 0⟩, ⟨⟨3, "c"⟩, 0⟩] : List NodeWithScore).length →
      ([⟨⟨1, "a"⟩, 5⟩, ⟨⟨3, "c"⟩, 4⟩] : List NodeWithScore).Sorted
        (fun u v => v.score ≤ u.score) ∧
      ∃ acc, runBatches ⟨"m", 2, 2, none, "k", "http://h/v1", false⟩ "q"
          (fun i => if i = 0 then [(⟨0, 5⟩ : Ranking), ⟨1, 3⟩] else [⟨0, 4⟩])
          (batched [⟨⟨1, "a"⟩, 0⟩, ⟨⟨2, "b"⟩, 0⟩, ⟨⟨3, "c"⟩, 0⟩] 2) 0 =
          ([⟨"m", none, "q", ["a", "b"]⟩, ⟨"m", none, "q", ["c"]⟩], .ok acc) ∧
        [⟨⟨1, "a"⟩, 5⟩, ⟨⟨3, "c"⟩, 4⟩] = (pySortDesc acc).take 2) :=
  claim_C3 ⟨"m", 2, 2, none, "k", "http://h/v1", false⟩ "q"
    [⟨⟨1, "a"⟩, 0⟩, ⟨⟨2, "b"⟩, 0⟩, ⟨⟨3, "c"⟩, 0⟩]
    (fun i => if i = 0 then [⟨0, 5⟩, ⟨1, 3⟩] else [⟨0, 4⟩])
    [⟨"m", none, "q", ["a", "b"]⟩, ⟨"m", none, "q", ["c"]⟩]
    [⟨⟨1, "a"⟩, 5⟩, ⟨⟨3, "c"⟩, 4⟩]
    (by decide)
    (by simp [postprocess_nodes, Except.map, runBatches, processBatch, mapRanked,
      pyGet, pyIndex, batched, pySortDesc, insertDesc])

/-- C4: on a successful invocation, each batch contributes exactly the
first `top_n` entries of its rankings list (per-batch truncation before
the cross-batch merge) — the contribution has the length of the truncated
rankings list, and each kept entry is mapped via its `index` field to the
passage at that position within the batch with score equal to its
`logit`; the final result is the merge (sorted only in the multi-batch
case) of these truncated contributions.  The statement holds for every
service response, in particular when a later batch holds higher-scoring
passages than the entries a batch discarded. -/
theorem claim_C4 (st : ClientState) (q : String) (nodes : List NodeWithScore)
    (service : Nat → List Ranking) (ps : List Payload) (res : List NodeWithScore)
    (h0 : nodes ≠ [])
    (hrun : postprocess_nodes st (some q) nodes service = (ps, .ok res)) :
    ∃ contribs : List (List NodeWithScore),
      contribs.length = (batched nodes st.max_batch_size).length ∧
      (∀ j < contribs.length,
        processBatch st.top_n ((batched nodes st.max_batch_size).getD j [])
            (service j) = some (contribs.getD j []) ∧
        (contribs.getD j []).length = ((service j).take st.top_n).length ∧
        ∀ k < ((service j).take st.top_n).length,
          ∃ n, pyGet ((batched nodes st.max_batch_size).getD j [])
              (((service j).take st.top_n).getD k ⟨0, 0⟩).index = some n ∧
            (contribs.getD j []).getD k ⟨⟨0, ""⟩, 0⟩ =
              ⟨n.node, (((service j).take st.top_n).getD k ⟨0, 0⟩).logit⟩) ∧
      res = (if st.max_batch_size < nodes.length
          then pySortDesc contribs.flatten else contribs.flatten).take st.top_n := by
  obtain ⟨acc, hout, hres⟩ := postprocess_ok_elim st q nodes service ps res h0 hrun
  obtain ⟨-, contribs, hclen, hacc, hper⟩ :=
    runBatches_ok_decomp st q service (batched nodes st.max_batch_size) 0 ps acc hout
  refine ⟨contribs, hclen, ?_, by rw [hres, hacc]⟩
  intro j hj
  have hj' : j < (batched nodes st.max_batch_size).length := hclen ▸ hj
  have hp := hper j hj'
  rw [Nat.zero_add] at hp
  refine ⟨hp, mapRanked_length _ _ _ hp, ?_⟩
  intro k hk
  exact mapRanked_entry _ _ _ hp k hk

/-- Witness for C4: `top_n = 1`, two batches; the second entry of the first
batch's rankings (score 4, higher than the second batch's best) is dropped
by the per-batch truncation. -/
theorem claim_C4_witness :
    ∃ contribs : List (List NodeWithScore),
      contribs.length =
        (batched ([⟨⟨1, "a"⟩, 0⟩, ⟨⟨2, "b"⟩, 0⟩, ⟨⟨3, "c"⟩, 0⟩] : List NodeWithScore) 2).length ∧
      (∀ j < contribs.length,
        processBatch 1 ((batched ([⟨⟨1, "a"⟩, 0⟩, ⟨⟨2, "b"⟩, 0⟩, ⟨⟨3, "c"⟩, 0⟩] : List NodeWithScore) 2).getD j [])
            ((fun i => if i = 0 then [(⟨0, 5⟩ : Ranking), ⟨1, 4⟩] else [⟨0, 3⟩]) j) =
          some (contribs.getD j []) ∧
        (contribs.getD j []).length =
          (((fun i => if i = 0 then [(⟨0, 5⟩ : Ranking), ⟨1, 4⟩] else [⟨0, 3⟩]) j).take 1).length ∧
        ∀ k < (((fun i => if i = 0 then [(⟨0, 5⟩ : Ranking), ⟨1, 4⟩] else [⟨0, 3⟩]) j).take 1).length,
          ∃ n, pyGet ((batched ([⟨⟨1, "a"⟩, 0⟩, ⟨⟨2, "b"⟩, 0⟩, ⟨⟨3, "c"⟩, 0⟩] : List NodeWithScore) 2).getD j [])
              ((((fun i => if i = 0 then [(⟨0, 5⟩ : Ranking), ⟨1, 4⟩] else [⟨0, 3⟩]) j).take 1).getD k ⟨0, 0⟩).index = some n ∧
            (contribs.getD j []).getD k ⟨⟨0, ""⟩, 0⟩ =
              ⟨n.node, ((((fun i => if i = 0 then [(⟨0, 5⟩ : Ranking), ⟨1, 4⟩] else [⟨0, 3⟩]) j).take 1).getD k ⟨0, 0⟩).logit⟩) ∧
      ([⟨⟨1, "a"⟩, 5⟩] : List NodeWithScore) =
        (if 2 < ([⟨⟨1, "a"⟩, 0⟩, ⟨⟨2, "b"⟩, 0⟩, ⟨⟨3, "c"⟩, 0⟩] : List NodeWithScore).length
          then pySortDesc contribs.flatten else contribs.flatten).take 1 :=
  claim_C4 ⟨"m", 1, 2, none, "k", "http://h/v1", false⟩ "q"
    [⟨⟨1, "a"⟩, 0⟩, ⟨⟨2, "b"⟩, 0⟩, ⟨⟨3, "c"⟩, 0⟩]
    (fun i => if i = 0 then [⟨0, 5⟩, ⟨1, 4⟩] else [⟨0, 3⟩])
    [⟨"m", none, "q", ["a", "b"]⟩, ⟨"m", none, "q", ["c"]⟩]
    [⟨⟨1, "a"⟩, 5⟩]
    (by decide)
    (by simp [postprocess_nodes, Except.map, runBatches, processBatch, mapRanked,
      pyGet, pyIndex, batched, pySortDesc, insertDesc])

/-- C5 (bug evidence): constructing in self-hosted mode with
`base_url = "http://host:8000/custom"` (no `/v1`) emits the warning and
`_validate_url` itself returns the normalized `".../custom/v1"`, but the
final `self.base_url = base_url` of `__init__` discards the normalization:
the constructed client's `base_url` is the original, un-normalized URL. -/
theorem claim_C5_bug :
    init (some "nvdev/custom") none none (some "http://host:8000/custom") none
        ["https://known.example/v1"] "default-model" [] [] =
      .ok { model := "nvdev/custom", base_url := some "http://host:8000/custom",
            api_key := "NO_API_KEY_PROVIDED", is_hosted := false,
            warned_v1 := true, warned_default_model := false,
            warned_unknown_model := false } ∧
    validate_url (some "http://host:8000/custom") =
      .ok (some "http://host:8000/custom/v1", true) :=
  ⟨rfl, rfl⟩

/-- C6 (amended): an absent (`None`) query bundle fails with the
`ValueError` before any POST is issued. -/
theorem claim_C6 (st : ClientState) (nodes : List NodeWithScore)
    (service : Nat → List Ranking) :
    postprocess_nodes st none nodes service = ([], .error .missingQuery) :=
  rfl

/-- C6 counterexample: an *empty-string* query is not rejected — the
invocation proceeds, issues a POST (carrying the empty query text) and
returns normally, contrary to the claim that an empty query fails with
ValidationError before any network call. -/
theorem claim_C6_counterexample :
    postprocess_nodes ⟨"m", 5, 64, none, "k", "http://h/v1", false⟩ (some "")
        [⟨⟨1, "a"⟩, 0⟩] (fun _ => []) =
      ([⟨"m", none, "", ["a"]⟩], .ok []) := by
  simp [postprocess_nodes, Except.map, runBatches, processBatch, mapRanked, batched]

/-- C7: a present query with an empty passage list returns the empty
result immediately, with no POST issued. -/
theorem claim_C7 (st : ClientState) (q : String) (service : Nat → List Ranking) :
    postprocess_nodes st (some q) [] service = ([], .ok []) :=
  rfl

/-- C8: hosted construction (base_url in the known-endpoint set) with no
API key given explicitly or via the environment fails with the missing-key
error; no client is created. -/
theorem claim_C8 (model0 : Option String) (u : String) (known_urls : List String)
    (default_model : String) (table listed : List CatalogModel)
    (hk : known_urls.contains u = true) :
    init model0 none none (some u) none known_urls default_model table listed =
      .error .missingApiKey := by
  simp only [init, hk, pyOr, optTruthy, get_from_param_or_env]
  rfl

/-- Witness for C8: the hosted catalogue endpoint with no key. -/
theorem claim_C8_witness :
    init (some "m") none none (some "https://known.example/v1") none
        ["https://known.example/v1"] "default-model" [] [] =
      .error .missingApiKey :=
  claim_C8 (some "m") "https://known.example/v1" ["https://known.example/v1"]
    "default-model" [] [] (by decide)

/-- C9 (amended): a rerank invocation changes no configuration field (the
method assigns no `self` attribute), and model listing preserves every
field except `base_url`, which `_get_models` rewrites to its
slash-normalized form `rstrip("/") + "/"` — so the configuration is *not*
entirely read-only during use. -/
theorem claim_C9 (st : ClientState) (q : Option String) (nodes : List NodeWithScore)
    (service : Nat → List Ranking) (table listed : List CatalogModel) :
    (postprocess_nodes_method st q nodes service).1 = st ∧
    (get_models st table listed).1.model = st.model ∧
    (get_models st table listed).1.top_n = st.top_n ∧
    (get_models st table listed).1.max_batch_size = st.max_batch_size ∧
    (get_models st table listed).1.truncate = st.truncate ∧
    (get_models st table listed).1.api_key = st.api_key ∧
    (get_models st table listed).1.is_hosted = st.is_hosted ∧
    (get_models st table listed).1.base_url = rstripSlash st.base_url ++ "/" :=
  ⟨rfl, rfl, rfl, rfl, rfl, rfl, rfl, rfl⟩

/-- C9 counterexample: model listing mutates the stored configuration —
after `_get_models` the client's `base_url` differs from the constructed
one (`"http://h/v1"` becomes `"http://h/v1/"`), refuting that the resolved
configuration is read-only under every operation. -/
theorem claim_C9_counterexample :
    (get_models ⟨"m", 5, 64, none, "k", "http://h/v1", true⟩ [] []).1 ≠
      ⟨"m", 5, 64, none, "k", "http://h/v1", true⟩ := by
  decide

/-- C10 (amended): the response-shape assertions do not constrain the
`index` fields; the mapping `batch[result["index"]]` is plain Python list
indexing, so the operation succeeds iff every kept entry's index lies in
`[-batch_len, batch_len)` — negative indices address from the back — and
then every returned entry references one of the input passages; any other
index aborts the invocation with the untyped `IndexError` (never a
RemoteError), which is also the only possible invocation-time failure
besides the missing-query check. -/
theorem claim_C10 (st : ClientState) (q : String) (nodes : List NodeWithScore)
    (service : Nat → List Ranking) (hs : 1 ≤ st.max_batch_size) :
    ((∀ j < (batched nodes st.max_batch_size).length,
        ∀ r ∈ (service j).take st.top_n,
          -(((batched nodes st.max_batch_size).getD j []).length : Int) ≤ r.index ∧
            r.index < ((batched nodes st.max_batch_size).getD j []).length) →
      ∃ ps res, postprocess_nodes st (some q) nodes service = (ps, .ok res) ∧
        ∀ x ∈ res, ∃ m ∈ nodes, x.node = m.node) ∧
    ((∃ ps res, postprocess_nodes st (some q) nodes service = (ps, .ok res)) →
      ∀ j < (batched nodes st.max_batch_size).length,
        ∀ r ∈ (service j).take st.top_n,
          -(((batched nodes st.max_batch_size).getD j []).length : Int) ≤ r.index ∧
            r.index < ((batched nodes st.max_batch_size).getD j []).length) ∧
    (∀ ps e, postprocess_nodes st (some q) nodes service = (ps, .error e) →
      e = .indexError) := by
  refine ⟨?_, ?_, ?_⟩
  · intro hidx
    rcases eq_or_ne nodes [] with rfl | h0
    · exact ⟨[], [], rfl, by simp⟩
    · have hlen : ¬(nodes.length = 0) := by
        intro h
        exact h0 (List.eq_nil_of_length_eq_zero h)
      obtain ⟨ps, acc, hout⟩ :=
        runBatches_total st q service (batched nodes st.max_batch_size) 0 (by
          intro j hj
          apply mapRanked_total
          intro r hr
          rw [pyGet_isSome_iff]
          rw [Nat.zero_add] at hr
          exact hidx j hj r hr)
      refine ⟨ps,
        (if st.max_batch_size < nodes.length then pySortDesc acc else acc).take st.top_n,
        ?_, ?_⟩
      · simp only [postprocess_nodes, if_neg hlen]
        rw [hout]
        rfl
      · obtain ⟨-, contribs, hclen, hacc, hper⟩ :=
          runBatches_ok_decomp st q service (batched nodes st.max_batch_size) 0 ps acc hout
        intro x hx
        have hxacc : x ∈ acc := by
          have hx' := List.mem_of_mem_take hx
          by_cases hm : st.max_batch_size < nodes.length
          · rw [if_pos hm] at hx'
            exact (pySortDesc_mem_iff acc x).mp hx'
          · rw [if_neg hm] at hx'
            exact hx'
        rw [hacc] at hxacc
        obtain ⟨c, hc, hxc⟩ := List.mem_flatten.mp hxacc
        obtain ⟨j, hjlen, hcj⟩ := List.getElem_of_mem hc
        have hj' : j < (batched nodes st.max_batch_size).length := hclen ▸ hjlen
        have hp := hper j hj'
        have hcd : contribs.getD j [] = c := by
          rw [List.getD_eq_getElem?_getD, List.getElem?_eq_getElem hjlen, hcj]
          rfl
        rw [hcd] at hp
        obtain ⟨m, hm, hxm⟩ := mapRanked_mem _ _ _ hp x hxc
        refine ⟨m, ?_, hxm⟩
        rw [← batched_flatten nodes st.max_batch_size hs]
        exact List.mem_flatten.mpr
          ⟨(batched nodes st.max_batch_size).getD j [], getD_mem_of_lt [] hj', hm⟩
  · rintro ⟨ps, res, hrun⟩ j hj r hr
    rcases eq_or_ne nodes [] with rfl | h0
    · rw [show batched ([] : List NodeWithScore) st.max_batch_size = [] from by
        simp [batched]] at hj
      simp at hj
    · obtain ⟨acc, hout, -⟩ := postprocess_ok_elim st q nodes service ps res h0 hrun
      obtain ⟨-, contribs, hclen, -, hper⟩ :=
        runBatches_ok_decomp st q service (batched nodes st.max_batch_size) 0 ps acc hout
      have hp := hper j hj
      rw [Nat.zero_add] at hp
      have := mapRanked_isSome_of_some _ _ _ hp r hr
      rw [pyGet_isSome_iff] at this
      exact this
  · intro ps e hrun
    rcases eq_or_ne nodes [] with rfl | h0
    · have hrun' : (([] : List Payload), Except.ok ([] : List NodeWithScore)) =
          (ps, .error e) := hrun
      simp only [Prod.mk.injEq] at hrun'
      cases hrun'.2
    · have hlen : ¬(nodes.length = 0) := by
        intro h
        exact h0 (List.eq_nil_of_length_eq_zero h)
      simp only [postprocess_nodes, if_neg hlen] at hrun
      cases hout : runBatches st q service (batched nodes st.max_batch_size) 0 with
      | mk ps0 r0 =>
        rw [hout] at hrun
        dsimp only at hrun
        cases r0 with
        | ok acc => simp [Except.map] at hrun
        | error e' =>
          simp only [Except.map, Prod.mk.injEq] at hrun
          injection hrun.2 with h2
          rw [← h2]
          exact runBatches_error_eq st q service (batched nodes st.max_batch_size) 0 ps0 e' hout

/-- Witness for C10 on a concrete input whose response uses the negative
index `-1` (in range for a one-element batch): the invocation succeeds and
the returned entry references an input passage. -/
theorem claim_C10_witness :
    ∃ ps res, postprocess_nodes ⟨"m", 1, 2, none, "k", "http://h/v1", false⟩ (some "q")
        [⟨⟨1, "a"⟩, 0⟩] (fun _ => [⟨-1, 7⟩]) = (ps, .ok res) ∧
      ∀ x ∈ res, ∃ m ∈ ([⟨⟨1, "a"⟩, 0⟩] : List NodeWithScore), x.node = m.node := by
  have hb : batched ([⟨⟨1, "a"⟩, 0⟩] : List NodeWithScore) 2 = [[⟨⟨1, "a"⟩, 0⟩]] := by
    simp [batched]
  exact (claim_C10 ⟨"m", 1, 2, none, "k", "http://h/v1", false⟩ "q"
    [⟨⟨1, "a"⟩, 0⟩] (fun _ => [⟨-1, 7⟩]) (by decide)).1 (by rw [hb]; decide)

/-- C10 counterexample: with a one-element batch and the response entry
`{"index": -1, "logit": 7}` the index lies outside `[0, batch_len)`, yet
the invocation neither raises an index error nor returns a foreign
passage — it succeeds and returns the batch's only passage, because
Python indexing accepts negative indices.  This refutes both "total only
under indices in [0, batch length)" and "an out-of-range index raises an
untyped index error". -/
theorem claim_C10_counterexample :
    postprocess_nodes ⟨"m", 1, 2, none, "k", "http://h/v1", false⟩ (some "q")
        [⟨⟨1, "a"⟩, 0⟩] (fun _ => [⟨-1, 7⟩]) =
      ([⟨"m", none, "q", ["a"]⟩], .ok [⟨⟨1, "a"⟩, 7⟩]) ∧
    ¬((0 : Int) ≤ -1 ∧ (-1 : Int) < ([⟨⟨1, "a"⟩, 0⟩] : List NodeWithScore).length) := by
  constructor
  · simp [postprocess_nodes, Except.map, runBatches, processBatch, mapRanked,
      pyGet, pyIndex, batched]
  · decide
